import Mathlib

/-!
Verification of the Ed25519 signing-key core (signing_key.rs).

The development shallowly embeds the signing-key module: bytes are `Nat`
values below 256, byte strings are `List Nat`, 64-bit machine words are
`Nat` values with explicit reduction modulo `2 ^ 64`, and the external
cryptographic collaborators (the sha2 crate SHA-512 digest and the
curve25519-dalek scalar and point arithmetic) are given executable
definitions that follow their documented semantics, so that every
definition can be evaluated on concrete inputs.
-/

namespace Ed25519

/-! Byte and 64-bit word utilities. -/

/-- Modulus of a 64-bit machine word. -/
def W64 : Nat := 2 ^ 64

/-- Right rotation of a 64-bit word. -/
def rotr (n w : Nat) : Nat := ((w >>> n) ||| (w <<< (64 - n))) % W64

/-- Logical right shift of a 64-bit word. -/
def shr (n w : Nat) : Nat := w >>> n

/-- Bitwise complement of a 64-bit word. -/
def wnot (w : Nat) : Nat := w ^^^ (W64 - 1)

/-- Addition modulo `2 ^ 64`. -/
def wadd (a b : Nat) : Nat := (a + b) % W64

/-- Little-endian interpretation of a byte string as a natural number. -/
def natFromBytesLE : List Nat → Nat
  | [] => 0
  | b :: bs => b % 256 + 256 * natFromBytesLE bs

/-- Little-endian encoding of a natural number into `k` bytes. -/
def bytesFromNatLE : Nat → Nat → List Nat
  | 0, _ => []
  | k + 1, n => n % 256 :: bytesFromNatLE k (n / 256)

/-- Big-endian interpretation of a byte string as a natural number. -/
def wordFromBytesBE (l : List Nat) : Nat :=
  l.foldl (fun acc b => acc * 256 + b % 256) 0

/-- Big-endian encoding of a 64-bit word as eight bytes. -/
def wordToBytesBE (w : Nat) : List Nat :=
  [(w >>> 56) &&& 255, (w >>> 48) &&& 255, (w >>> 40) &&& 255,
   (w >>> 32) &&& 255, (w >>> 24) &&& 255, (w >>> 16) &&& 255,
   (w >>> 8) &&& 255, w &&& 255]

/-! SHA-512 (FIPS 180-4), the digest used by the sha2 crate collaborator. -/

/-- Choice function of the SHA-512 round. -/
def ch (x y z : Nat) : Nat := (x &&& y) ^^^ (wnot x &&& z)

/-- Majority function of the SHA-512 round. -/
def maj (x y z : Nat) : Nat := (x &&& y) ^^^ (x &&& z) ^^^ (y &&& z)

/-- Upper-case sigma-0 function of SHA-512. -/
def bigSigma0 (x : Nat) : Nat := rotr 28 x ^^^ rotr 34 x ^^^ rotr 39 x

/-- Upper-case sigma-1 function of SHA-512. -/
def bigSigma1 (x : Nat) : Nat := rotr 14 x ^^^ rotr 18 x ^^^ rotr 41 x

/-- Lower-case sigma-0 function of SHA-512. -/
def smallSigma0 (x : Nat) : Nat := rotr 1 x ^^^ rotr 8 x ^^^ shr 7 x

/-- Lower-case sigma-1 function of SHA-512. -/
def smallSigma1 (x : Nat) : Nat := rotr 19 x ^^^ rotr 61 x ^^^ shr 6 x

/-- Round constants of SHA-512, in decimal: the low 64 bits of the
fractional parts of the cube roots of the first eighty primes. -/
def K512 : List Nat := [
  4794697086780616226, 8158064640168781261, 13096744586834688815,
  16840607885511220156, 4131703408338449720, 6480981068601479193,
  10538285296894168987, 12329834152419229976, 15566598209576043074,
  1334009975649890238, 2608012711638119052, 6128411473006802146,
  8268148722764581231, 9286055187155687089, 11230858885718282805,
  13951009754708518548, 16472876342353939154, 17275323862435702243,
  1135362057144423861, 2597628984639134821, 3308224258029322869,
  5365058923640841347, 6679025012923562964, 8573033837759648693,
  10970295158949994411, 12119686244451234320, 12683024718118986047,
  13788192230050041572, 14330467153632333762, 15395433587784984357,
  489312712824947311, 1452737877330783856, 2861767655752347644,
  3322285676063803686, 5560940570517711597, 5996557281743188959,
  7280758554555802590, 8532644243296465576, 9350256976987008742,
  10552545826968843579, 11727347734174303076, 12113106623233404929,
  14000437183269869457, 14369950271660146224, 15101387698204529176,
  15463397548674623760, 17586052441742319658, 1182934255886127544,
  1847814050463011016, 2177327727835720531, 2830643537854262169,
  3796741975233480872, 4115178125766777443, 5681478168544905931,
  6601373596472566643, 7507060721942968483, 8399075790359081724,
  8693463985226723168, 9568029438360202098, 10144078919501101548,
  10430055236837252648, 11840083180663258601, 13761210420658862357,
  14299343276471374635, 14566680578165727644, 15097957966210449927,
  16922976911328602910, 17689382322260857208, 500013540394364858,
  748580250866718886, 1242879168328830382, 1977374033974150939,
  2944078676154940804, 3659926193048069267, 4368137639120453308,
  4836135668995329356, 5532061633213252278, 6448918945643986474,
  6902733635092675308, 7801388544844847127]

/-- State of the SHA-512 compression function: eight 64-bit words. -/
structure Hash8 where
  a : Nat
  b : Nat
  c : Nat
  d : Nat
  e : Nat
  f : Nat
  g : Nat
  h : Nat
deriving DecidableEq

/-- Initial SHA-512 hash value, in decimal: the low 64 bits of the
fractional parts of the square roots of the first eight primes. -/
def initH : Hash8 :=
  ⟨7640891576956012808, 13503953896175478587,
   4354685564936845355, 11912009170470909681,
   5840696475078001361, 11170449401992604703,
   2270897969802886507, 6620516959819538809⟩

/-- One round of the SHA-512 compression function. -/
def shaRound (st : Hash8) (kw w : Nat) : Hash8 :=
  let t1 := wadd st.h (wadd (bigSigma1 st.e) (wadd (ch st.e st.f st.g) (wadd kw w)))
  let t2 := wadd (bigSigma0 st.a) (maj st.a st.b st.c)
  ⟨wadd t1 t2, st.a, st.b, st.c, wadd st.d t1, st.e, st.f, st.g⟩

/-- Message-schedule extension: the accumulator holds the words most recent
first; each step prepends one new word. -/
def scheduleAux : Nat → List Nat → List Nat
  | 0, acc => acc
  | n + 1, acc =>
      let w := wadd (smallSigma1 (acc.getD 1 0))
        (wadd (acc.getD 6 0) (wadd (smallSigma0 (acc.getD 14 0)) (acc.getD 15 0)))
      scheduleAux n (w :: acc)

/-- Full 80-word message schedule from the 16 words of one block. -/
def schedule (ws : List Nat) : List Nat :=
  (scheduleAux 64 ws.reverse).reverse

/-- Split a byte string into big-endian 64-bit words, eight bytes per word.
The first argument is fuel bounding the recursion depth. -/
def bytesToWordsBEAux : Nat → List Nat → List Nat
  | 0, _ => []
  | _ + 1, [] => []
  | f + 1, l => wordFromBytesBE (l.take 8) :: bytesToWordsBEAux f (l.drop 8)

/-- Split a byte string into big-endian 64-bit words. -/
def bytesToWordsBE (l : List Nat) : List Nat :=
  bytesToWordsBEAux l.length l

/-- Compress one 128-byte block into the running hash state. -/
def compressBlock (st : Hash8) (block : List Nat) : Hash8 :=
  let ws := schedule (bytesToWordsBE block)
  let fin := (K512.zip ws).foldl (fun s kw => shaRound s kw.1 kw.2) st
  ⟨wadd st.a fin.a, wadd st.b fin.b, wadd st.c fin.c, wadd st.d fin.d,
   wadd st.e fin.e, wadd st.f fin.f, wadd st.g fin.g, wadd st.h fin.h⟩

/-- SHA-512 padding: append the bit 1, zeros, and the 128-bit big-endian
bit length, reaching a multiple of 128 bytes. -/
def padMsg (m : List Nat) : List Nat :=
  let L := m.length
  let z := (128 - ((L + 17) % 128)) % 128
  m ++ [0x80] ++ List.replicate z 0 ++ (bytesFromNatLE 16 (L * 8)).reverse

/-- Split a padded message into 128-byte blocks.  The first argument is
fuel bounding the recursion depth. -/
def toBlocksAux : Nat → List Nat → List (List Nat)
  | 0, _ => []
  | _ + 1, [] => []
  | f + 1, l => l.take 128 :: toBlocksAux f (l.drop 128)

/-- Split a padded message into 128-byte blocks. -/
def toBlocks (l : List Nat) : List (List Nat) :=
  toBlocksAux l.length l

/-- The SHA-512 digest of a byte string: 64 bytes. -/
def sha512 (m : List Nat) : List Nat :=
  let st := (toBlocks (padMsg m)).foldl compressBlock initH
  wordToBytesBE st.a ++ wordToBytesBE st.b ++ wordToBytesBE st.c ++
  wordToBytesBE st.d ++ wordToBytesBE st.e ++ wordToBytesBE st.f ++
  wordToBytesBE st.g ++ wordToBytesBE st.h

/-! Curve25519 field and edwards-point arithmetic, the curve25519-dalek
collaborator.  Field elements are `Nat` values with explicit reduction
modulo the prime `P25519`; points are in extended twisted Edwards
coordinates. -/

/-- The field prime `2 ^ 255 - 19`. -/
def P25519 : Nat := 2 ^ 255 - 19

/-- The order of the prime-order subgroup generated by the base point. -/
def L25519 : Nat := 2 ^ 252 + 27742317777372353535851937790883648493

/-- The edwards curve constant `d = -121665 / 121666`. -/
def D25519 : Nat :=
  37095705934669439343138083508754565189542113879843219016388785533085940283555

/-- Modular exponentiation by binary recursion on fuel. -/
def powModAux : Nat → Nat → Nat → Nat → Nat
  | 0, _, _, m => 1 % m
  | f + 1, b, e, m =>
      if e = 0 then 1 % m
      else
        let h := powModAux f ((b * b) % m) (e / 2) m
        if e % 2 = 1 then (h * b) % m else h

/-- Modular exponentiation: `powMod b e m = b ^ e % m` for `e < 2 ^ 256`. -/
def powMod (b e m : Nat) : Nat := powModAux 256 (b % m) e m

/-- Field addition modulo `P25519`. -/
def fadd (a b : Nat) : Nat := (a + b) % P25519

/-- Field subtraction modulo `P25519`; operands are first reduced. -/
def fsub (a b : Nat) : Nat := (a % P25519 + (P25519 - b % P25519)) % P25519

/-- Field multiplication modulo `P25519`. -/
def fmul (a b : Nat) : Nat := (a * b) % P25519

/-- Field inverse by Fermat exponentiation. -/
def finv (a : Nat) : Nat := powMod a (P25519 - 2) P25519

/-- A curve point in extended twisted Edwards coordinates. -/
structure ExtPoint where
  x : Nat
  y : Nat
  z : Nat
  t : Nat
deriving DecidableEq

/-- The neutral element of the edwards curve group. -/
def idPoint : ExtPoint := ⟨0, 1, 1, 0⟩

/-- The edwards base point in extended coordinates. -/
def basePoint : ExtPoint :=
  let bx := 15112221349535400772501151409588531511454012693041857206046113283949847762202
  let by' := 46316835694926478169428394003475163141307993866256225615783033603165251855960
  ⟨bx, by', 1, fmul bx by'⟩

/-- Complete unified addition on the edwards curve in extended coordinates. -/
def padd (p1 p2 : ExtPoint) : ExtPoint :=
  let a := fmul (fsub p1.y p1.x) (fsub p2.y p2.x)
  let b := fmul (fadd p1.y p1.x) (fadd p2.y p2.x)
  let c := fmul (fmul p1.t (fmul 2 D25519)) p2.t
  let d := fmul (fmul p1.z 2) p2.z
  let e := fsub b a
  let f := fsub d c
  let g := fadd d c
  let h := fadd b a
  ⟨fmul e f, fmul g h, fmul f g, fmul e h⟩

/-- Negation of an edwards point. -/
def pneg (p : ExtPoint) : ExtPoint :=
  ⟨(P25519 - p.x % P25519) % P25519, p.y % P25519, p.z % P25519,
   (P25519 - p.t % P25519) % P25519⟩

/-- Double-and-add scalar multiplication by binary recursion on fuel. -/
def scalarMulAux : Nat → Nat → ExtPoint → ExtPoint
  | 0, _, _ => idPoint
  | f + 1, n, p =>
      if n = 0 then idPoint
      else
        let q := scalarMulAux f (n / 2) p
        let q2 := padd q q
        if n % 2 = 1 then padd q2 p else q2

/-- Scalar multiplication `n · p` for `n < 2 ^ 256`. -/
def scalarMul (n : Nat) (p : ExtPoint) : ExtPoint := scalarMulAux 256 n p

/-- Scalar multiplication of the base point. -/
def scalarMulBase (n : Nat) : ExtPoint := scalarMul n basePoint

/-- Compression of an edwards point to its canonical 32-byte encoding:
the little-endian bytes of the affine `y` coordinate with the parity of
the affine `x` coordinate stored in the top bit. -/
def compress (p : ExtPoint) : List Nat :=
  let zi := finv p.z
  let ax := fmul p.x zi
  let ay := fmul p.y zi
  let bs := bytesFromNatLE 32 ay
  bs.set 31 ((bs.getD 31 0) ||| ((ax % 2) <<< 7))

/-! Scalars of the prime-order subgroup, as in curve25519-dalek: a scalar
is its 32-byte little-endian encoding. -/

/-- The integer value of a scalar encoding. -/
def scalarVal (s : List Nat) : Nat := natFromBytesLE s

/-- Dalek `Scalar::from_bits`: store the 32 bytes directly, masking the
top bit of byte 31; no reduction modulo the group order is performed. -/
def scalarFromBits (b : List Nat) : List Nat :=
  b.set 31 ((b.getD 31 0) &&& 127)

/-- Dalek `Scalar::from_hash` composed with SHA-512: interpret the 64-byte
digest little-endian and reduce modulo the group order. -/
def scalarFromHash (input : List Nat) : List Nat :=
  bytesFromNatLE 32 (natFromBytesLE (sha512 input) % L25519)

/-- Dalek scalar multiplication: the product modulo the group order in
canonical encoding.  Montgomery multiplication in dalek returns the fully
reduced product for any scalar inputs below `2 ^ 255`. -/
def scalarMulMod (a b : List Nat) : List Nat :=
  bytesFromNatLE 32 ((scalarVal a * scalarVal b) % L25519)

/-- Dalek scalar addition: the sum modulo the group order in canonical
encoding; faithful for canonically reduced operands, which is how the
source uses it. -/
def scalarAddMod (a b : List Nat) : List Nat :=
  bytesFromNatLE 32 ((scalarVal a + scalarVal b) % L25519)

/-! The signing-key module of the repository (signing_key.rs). -/

/-- The generic error collaborator of the crate, with the kinds the
signing-key module uses. -/
inductive Error where
  | InvalidSliceLength
  | MalformedSecretKey
deriving DecidableEq

/-- The error type of the pkcs8 collaborator crate, restricted to the
variant the module produces. -/
inductive Pkcs8Error where
  | Decode
deriving DecidableEq

/-- An algorithm identifier of the pkcs8 collaborator: an object
identifier, modelled by its dotted string, and optional parameters. -/
structure AlgorithmIdentifier where
  oid : String
  parameters : Option String
deriving DecidableEq

/-- The Ed25519 object identifier of RFC 8410. -/
def OID : String := "1.3.101.112"

/-- The Ed25519 algorithm identifier: the OID with absent parameters. -/
def ALGORITHM_ID : AlgorithmIdentifier := ⟨OID, none⟩

/-- A pkcs8 private-key-information structure: the parsed form of the DER
private-key container.  The pkcs8 collaborator serializes it to and from
DER bytes; that external codec pair is trusted, so the container is
modelled at this level. -/
structure PrivateKeyInfo where
  algorithm : AlgorithmIdentifier
  private_key : List Nat
deriving DecidableEq

/-- The compressed public-key bytes collaborator type. -/
structure VerificationKeyBytes where
  bytes : List Nat
deriving DecidableEq

/-- The verification-key collaborator type: the negated public point
cached next to the compressed public-key bytes. -/
structure VerificationKey where
  minus_A : ExtPoint
  A_bytes : VerificationKeyBytes
deriving DecidableEq

/-- An Ed25519 signing key: the seed, the derived scalar `s`, the derived
nonce material `pfx` (field `prefix` in the source; that word is a Lean
keyword), and the cached verification key. -/
structure SigningKey where
  seed : List Nat
  s : List Nat
  pfx : List Nat
  vk : VerificationKey
deriving DecidableEq

/-- A signature: the compressed nonce commitment and the response scalar
encoding, 32 bytes each. -/
structure Signature where
  R_bytes : List Nat
  s_bytes : List Nat
deriving DecidableEq

/-- Ed25519 clamping as in the source: clear the low three bits of byte 0,
clear the top bit of byte 31, set bit 6 of byte 31. -/
def clampBytes (b : List Nat) : List Nat :=
  let b0 := b.set 0 ((b.getD 0 0) &&& 248)
  b0.set 31 (((b0.getD 31 0) &&& 127) ||| 64)

/-- Key derivation, the `From` conversion from a 32-byte seed: expand the
seed with SHA-512, clamp the low half into the scalar by `from_bits`,
keep the high half as the nonce material, and cache the public key
`A = s · B` compressed together with its negation. -/
def SigningKey.fromSeed (seed : List Nat) : SigningKey :=
  let h := sha512 seed
  let scalar_bytes := h.take 32
  let s := scalarFromBits (clampBytes scalar_bytes)
  let pfx := (h.drop 32).take 32
  let A := scalarMulBase (scalarVal s)
  { seed := seed, s := s, pfx := pfx,
    vk := { minus_A := pneg A, A_bytes := ⟨compress A⟩ } }

/-- The `TryFrom` conversion from a byte slice: succeed exactly on slices
of length 32, otherwise report an invalid length. -/
def SigningKey.tryFromSlice (slice : List Nat) : Except Error SigningKey :=
  if slice.length = 32 then .ok (SigningKey.fromSeed slice)
  else .error .InvalidSliceLength

/-- The `TryFrom` conversion from a private-key-information structure:
check the algorithm identifier, then convert the raw payload slice. -/
def SigningKey.tryFromPki (pki : PrivateKeyInfo) : Except Error SigningKey :=
  if pki.algorithm = ALGORITHM_ID then SigningKey.tryFromSlice pki.private_key
  else .error .MalformedSecretKey

/-- Encoding to the private-key container, `to_pkcs8_der`: the payload is
a 34-byte buffer filled with the octet-string framing bytes `04 20`
followed by the seed; slots the iterator does not reach stay zero. -/
def SigningKey.toPkcs8Der (key : SigningKey) : PrivateKeyInfo :=
  let octetstring_array : List Nat := [0x04, 0x20]
  let raw := octetstring_array ++ key.seed
  let final_key := raw.take 34 ++ List.replicate (34 - raw.length) 0
  ⟨ALGORITHM_ID, final_key⟩

/-- Decoding from the private-key container,
`from_pkcs8_private_key_info`: split two framing bytes off the payload
(`split_at` aborts the process when the payload is shorter, modelled by
`none`), require them to be `04 20`, and convert the remaining slice,
mapping its error to the pkcs8 decode error.  The algorithm identifier is
not inspected. -/
def SigningKey.fromPkcs8PrivateKeyInfo (pki : PrivateKeyInfo) :
    Option (Except Pkcs8Error SigningKey) :=
  if pki.private_key.length < 2 then none
  else
    let octetstring_bytes := pki.private_key.take 2
    let private_key := pki.private_key.drop 2
    if octetstring_bytes ≠ [0x04, 0x20] then some (.error .Decode)
    else some ((SigningKey.tryFromSlice private_key).mapError
      (fun _ => Pkcs8Error.Decode))

/-- The `Zeroize` implementation: overwrite the seed bytes and the scalar
bytes with zeros; the other fields are not touched. -/
def SigningKey.zeroize (key : SigningKey) : SigningKey :=
  { key with
      seed := List.replicate key.seed.length 0,
      s := List.replicate key.s.length 0 }

/-- Signature creation as in the source: the nonce scalar from the hash
of the nonce material and the message, its commitment `R`, the challenge
scalar from the hash of `R`, the public-key bytes and the message, and
the response `r + k · s` modulo the group order. -/
def SigningKey.sign (key : SigningKey) (msg : List Nat) : Signature :=
  let r := scalarFromHash (key.pfx ++ msg)
  let R_bytes := compress (scalarMulBase (scalarVal r))
  let k := scalarFromHash (R_bytes ++ key.vk.A_bytes.bytes ++ msg)
  let s_bytes := scalarAddMod r (scalarMulMod k key.s)
  ⟨R_bytes, s_bytes⟩

/-- Serialized form of a signature: `R` followed by `s`, 64 bytes. -/
def Signature.toBytes (sig : Signature) : List Nat :=
  sig.R_bytes ++ sig.s_bytes

/-! Supporting lemmas. -/

theorem length_bytesFromNatLE (k n : Nat) : (bytesFromNatLE k n).length = k := by
  induction k generalizing n with
  | zero => rfl
  | succ k ih => simp [bytesFromNatLE, ih]

theorem natFromBytesLE_bytesFromNatLE (k n : Nat) :
    natFromBytesLE (bytesFromNatLE k n) = n % 256 ^ k := by
  induction k generalizing n with
  | zero => simp [bytesFromNatLE, natFromBytesLE, Nat.mod_one]
  | succ k ih =>
      rw [bytesFromNatLE, natFromBytesLE, ih, Nat.pow_succ', Nat.mod_mul,
        Nat.mod_mod_of_dvd _ (Nat.dvd_refl 256)]

theorem scalarVal_bytesFromNatLE32 (x : Nat) :
    scalarVal (bytesFromNatLE 32 x) = x % 2 ^ 256 := by
  have h : (256 : Nat) ^ 32 = 2 ^ 256 := by decide
  rw [scalarVal, natFromBytesLE_bytesFromNatLE, h]

theorem L25519_lt : L25519 < 2 ^ 256 := by decide

theorem L25519_pos : 0 < L25519 := by decide

theorem scalarVal_modL (x : Nat) :
    scalarVal (bytesFromNatLE 32 (x % L25519)) = x % L25519 := by
  rw [scalarVal_bytesFromNatLE32]
  exact Nat.mod_eq_of_lt (Nat.lt_trans (Nat.mod_lt _ L25519_pos) L25519_lt)

theorem length_sha512 (m : List Nat) : (sha512 m).length = 64 := by
  simp [sha512, wordToBytesBE]

theorem length_compress (p : ExtPoint) : (compress p).length = 32 := by
  simp [compress, length_bytesFromNatLE]

theorem getD_set_ne {α : Type} (l : List α) {i j : Nat} (x d : α) (h : i ≠ j) :
    (l.set i x).getD j d = l.getD j d := by
  simp [List.getD_eq_getElem?_getD, List.getElem?_set_ne h]

theorem getD_set_self {α : Type} (l : List α) {i : Nat} (x d : α)
    (h : i < l.length) : (l.set i x).getD i d = x := by
  simp [List.getD_eq_getElem?_getD, List.getElem?_set_self h]

theorem set_getD_eq_self {α : Type} :
    ∀ (l : List α) (i : Nat) (d : α), l.set i (l.getD i d) = l
  | [], _, _ => rfl
  | _ :: _, 0, _ => rfl
  | a :: l, i + 1, d => congrArg (a :: ·) (set_getD_eq_self l i d)

theorem length_clampBytes (b : List Nat) : (clampBytes b).length = b.length := by
  simp [clampBytes]

theorem length_scalarFromBits (b : List Nat) :
    (scalarFromBits b).length = b.length := by
  simp [scalarFromBits]

theorem fromSeed_s (seed : List Nat) :
    (SigningKey.fromSeed seed).s =
      scalarFromBits (clampBytes ((sha512 seed).take 32)) := rfl

theorem fromSeed_seed (seed : List Nat) :
    (SigningKey.fromSeed seed).seed = seed := rfl

theorem fromSeed_pfx (seed : List Nat) :
    (SigningKey.fromSeed seed).pfx = ((sha512 seed).drop 32).take 32 := rfl

theorem length_take32_sha512 (seed : List Nat) :
    ((sha512 seed).take 32).length = 32 := by
  simp [length_sha512]

/-- The byte at index 31 of a clamped byte string of length at least 32:
the source byte masked to its low seven bits with bit six set. -/
theorem clampBytes_getD_31 (b : List Nat) (h : 31 < b.length) :
    (clampBytes b).getD 31 0 = ((b.getD 31 0) &&& 127) ||| 64 := by
  unfold clampBytes
  rw [getD_set_self _ _ _ (by simpa using h),
    getD_set_ne _ _ _ (by decide)]

/-- The byte at index 0 of a clamped byte string: the source byte with
its low three bits cleared. -/
theorem clampBytes_getD_0 (b : List Nat) (h : 0 < b.length) :
    (clampBytes b).getD 0 0 = (b.getD 0 0) &&& 248 := by
  unfold clampBytes
  rw [getD_set_ne _ _ _ (by decide), getD_set_self _ _ _ h]

/-- The byte produced by clamping at index 31 is below 128, so the
top-bit mask applied by `from_bits` leaves it unchanged. -/
theorem scalarFromBits_clampBytes (b : List Nat) :
    scalarFromBits (clampBytes b) = clampBytes b := by
  unfold scalarFromBits
  have hv : (clampBytes b).getD 31 0 &&& 127 = (clampBytes b).getD 31 0 := by
    rcases Nat.lt_or_ge 31 b.length with h | h
    · rw [clampBytes_getD_31 b h]
      have hlt : (b.getD 31 0) &&& 127 ||| 64 < 2 ^ 7 :=
        Nat.or_lt_two_pow (Nat.lt_succ_of_le Nat.and_le_right) (by decide)
      calc ((b.getD 31 0) &&& 127 ||| 64) &&& 127
          = ((b.getD 31 0) &&& 127 ||| 64) &&& (2 ^ 7 - 1) := by rfl
        _ = (b.getD 31 0) &&& 127 ||| 64 :=
            Nat.and_pow_two_sub_one_of_lt_two_pow hlt
    · have hnone : (clampBytes b).getD 31 0 = 0 := by
        rw [List.getD_eq_getElem?_getD, List.getElem?_eq_none (by
          simpa [length_clampBytes] using h)]
        rfl
      rw [hnone]; rfl
  rw [hv, set_getD_eq_self]

/-- Byte 0 of the derived scalar encoding: the low SHA-512 byte with its
low three bits cleared. -/
theorem fromSeed_s_getD_0 (seed : List Nat) :
    ((SigningKey.fromSeed seed).s).getD 0 0 =
      (((sha512 seed).take 32).getD 0 0) &&& 248 := by
  rw [fromSeed_s, scalarFromBits_clampBytes,
    clampBytes_getD_0 _ (by rw [length_take32_sha512]; decide)]

/-- Byte 31 of the derived scalar encoding: the high SHA-512 byte masked
to seven bits with bit six set. -/
theorem fromSeed_s_getD_31 (seed : List Nat) :
    ((SigningKey.fromSeed seed).s).getD 31 0 =
      ((((sha512 seed).take 32).getD 31 0) &&& 127) ||| 64 := by
  rw [fromSeed_s, scalarFromBits_clampBytes,
    clampBytes_getD_31 _ (by rw [length_take32_sha512]; decide)]

/-! Spec-side definitions used for refinement comparison.  These follow
the wording of the specification, not the source, and are compared with
the source-side definitions in the claim theorems. -/

/-- Spec wording for the derived scalar of claim C2: the canonical,
fully reduced scalar representation of the clamped low 32 bytes of the
SHA-512 digest of the seed. -/
def specCanonicalScalar (seed : List Nat) : List Nat :=
  bytesFromNatLE 32 (natFromBytesLE (clampBytes ((sha512 seed).take 32)) % L25519)

/-- Spec wording for signing, claim C1: the nonce scalar is the SHA-512
digest of the nonce material and the message reduced modulo the group
order, `R` the compressed commitment, the challenge scalar the SHA-512
digest of `R`, the public-key bytes and the message reduced modulo the
group order, and the response the 32-byte encoding of
`r + k * scalar mod L`. -/
def signSpec (key : SigningKey) (msg : List Nat) : Signature :=
  let rv := natFromBytesLE (sha512 (key.pfx ++ msg)) % L25519
  let Rb := compress (scalarMulBase rv)
  let kv := natFromBytesLE (sha512 (Rb ++ key.vk.A_bytes.bytes ++ msg)) % L25519
  let sv := (rv + kv * scalarVal key.s) % L25519
  ⟨Rb, bytesFromNatLE 32 sv⟩

/-! Claim theorems. -/

/-- C1: for every signing key and message, `sign` returns the signature
computed exactly as the specification states it: the nonce scalar `r` is
the SHA-512 digest of the nonce material and the message reduced modulo
the group order, `R` is the 32-byte compression of `r` times the base
point, the challenge `k` is the SHA-512 digest of `R`, the public-key
bytes and the message reduced modulo the group order, and `s` is the
32-byte encoding of `r + k * scalar` modulo the group order. -/
theorem sign_follows_spec (key : SigningKey) (msg : List Nat) :
    key.sign msg = signSpec key msg := by
  simp only [SigningKey.sign, signSpec, scalarAddMod, scalarMulMod,
    scalarFromHash, scalarVal_modL, Nat.add_mod_mod]

set_option maxRecDepth 100000 in
/-- C2, counterexample: at the all-zero seed the stored scalar is not the
canonical reduced representation of the clamped digest bytes; clamping
sets bit 254, so the stored unreduced value exceeds the group order. -/
theorem stored_scalar_not_canonical_at_zero_seed :
    (SigningKey.fromSeed (List.replicate 32 0)).s ≠
      specCanonicalScalar (List.replicate 32 0) := by decide

/-- C2, amended: the scalar stored in a derived signing key is the
clamped low 32 bytes of the SHA-512 digest of the seed stored directly,
without reduction modulo the group order; its value is congruent modulo
the group order to the canonical representation the claim names. -/
theorem stored_scalar_is_unreduced_clamped (seed : List Nat) :
    (SigningKey.fromSeed seed).s = clampBytes ((sha512 seed).take 32) ∧
    scalarVal ((SigningKey.fromSeed seed).s) % L25519 =
      scalarVal (specCanonicalScalar seed) := by
  have h1 : (SigningKey.fromSeed seed).s = clampBytes ((sha512 seed).take 32) := by
    rw [fromSeed_s, scalarFromBits_clampBytes]
  refine ⟨h1, ?_⟩
  rw [h1, specCanonicalScalar, scalarVal_modL]
  rfl

/-- C3: the byte encoding of the scalar stored in a derived signing key
has bits 0, 1 and 2 of byte 0 clear, bit 255 clear and bit 254 set; bits
255 and 254 of the 256-bit little-endian encoding are bits 7 and 6 of
byte 31. -/
theorem derived_scalar_clamping_invariant (seed : List Nat) :
    Nat.testBit (((SigningKey.fromSeed seed).s).getD 0 0) 0 = false ∧
    Nat.testBit (((SigningKey.fromSeed seed).s).getD 0 0) 1 = false ∧
    Nat.testBit (((SigningKey.fromSeed seed).s).getD 0 0) 2 = false ∧
    Nat.testBit (((SigningKey.fromSeed seed).s).getD 31 0) 7 = false ∧
    Nat.testBit (((SigningKey.fromSeed seed).s).getD 31 0) 6 = true := by
  rw [fromSeed_s_getD_0, fromSeed_s_getD_31]
  refine ⟨?_, ?_, ?_, ?_, ?_⟩ <;>
    simp [Nat.testBit_land, Nat.testBit_lor,
      show Nat.testBit 248 0 = false from rfl,
      show Nat.testBit 248 1 = false from rfl,
      show Nat.testBit 248 2 = false from rfl,
      show Nat.testBit 127 7 = false from rfl,
      show Nat.testBit 64 7 = false from rfl,
      show Nat.testBit 127 6 = true from rfl,
      show Nat.testBit 64 6 = true from rfl]

/-- C4: decoding the private-key container produced by encoding a derived
signing key succeeds and returns a key equal to the original in all
fields. -/
theorem pkcs8_roundtrip (seed : List Nat) (h : seed.length = 32) :
    SigningKey.fromPkcs8PrivateKeyInfo ((SigningKey.fromSeed seed).toPkcs8Der) =
      some (.ok (SigningKey.fromSeed seed)) := by
  have hpk : ((SigningKey.fromSeed seed).toPkcs8Der).private_key =
      0x04 :: 0x20 :: seed := by
    simp only [SigningKey.toPkcs8Der, fromSeed_seed]
    rw [List.take_of_length_le (by simp [h])]
    simp [h]
  simp [SigningKey.fromPkcs8PrivateKeyInfo, hpk, SigningKey.tryFromSlice, h,
    Except.mapError]

/-- C4, witness at a concrete 32-byte seed. -/
theorem pkcs8_roundtrip_witness :
    (List.replicate 32 (7 : Nat)).length = 32 ∧
    SigningKey.fromPkcs8PrivateKeyInfo
        ((SigningKey.fromSeed (List.replicate 32 7)).toPkcs8Der) =
      some (.ok (SigningKey.fromSeed (List.replicate 32 7))) :=
  ⟨by decide, pkcs8_roundtrip (List.replicate 32 7) (by decide)⟩

/-- A container whose algorithm identifier is the RSA object identifier
rather than the Ed25519 one, with an otherwise well-formed payload. -/
def pkiWrongAlgorithm : PrivateKeyInfo :=
  ⟨⟨"1.2.840.113549.1.1.1", none⟩, 0x04 :: 0x20 :: List.replicate 32 0⟩

/-- C5, counterexample: the container decoder
`from_pkcs8_private_key_info` never inspects the algorithm identifier,
so decoding a well-formed container carrying a non-Ed25519 identifier
succeeds instead of failing with an algorithm-mismatch error. -/
theorem fromPkcs8_ignores_algorithm :
    SigningKey.fromPkcs8PrivateKeyInfo pkiWrongAlgorithm =
      some (.ok (SigningKey.fromSeed (List.replicate 32 0))) := rfl

/-- C5, amended: the `TryFrom` conversion from a private-key-information
value, the one decode path that checks the algorithm, fails with the
algorithm-mismatch error `MalformedSecretKey` whenever the identifier is
not the Ed25519 one; the `from_pkcs8_private_key_info` path performs no
such check. -/
theorem tryFromPki_rejects_wrong_algorithm (pki : PrivateKeyInfo)
    (h : pki.algorithm ≠ ALGORITHM_ID) :
    SigningKey.tryFromPki pki = .error .MalformedSecretKey := by
  simp [SigningKey.tryFromPki, h]

/-- C5, witness for the amended claim at a concrete container. -/
theorem tryFromPki_rejects_wrong_algorithm_witness :
    pkiWrongAlgorithm.algorithm ≠ ALGORITHM_ID ∧
    SigningKey.tryFromPki pkiWrongAlgorithm = .error .MalformedSecretKey :=
  ⟨by decide, tryFromPki_rejects_wrong_algorithm pkiWrongAlgorithm (by decide)⟩

/-- C6: decoding any container whose payload has at least two bytes that
are not the framing bytes `04 20` fails with the malformed-container
decode error. -/
theorem fromPkcs8_rejects_bad_framing (pki : PrivateKeyInfo)
    (h2 : 2 ≤ pki.private_key.length)
    (hp : pki.private_key.take 2 ≠ [0x04, 0x20]) :
    SigningKey.fromPkcs8PrivateKeyInfo pki = some (.error .Decode) := by
  unfold SigningKey.fromPkcs8PrivateKeyInfo
  rw [if_neg (by omega)]
  simp [hp]

/-- A container whose payload starts with `05 20` instead of `04 20`. -/
def pkiBadFraming : PrivateKeyInfo :=
  ⟨ALGORITHM_ID, 0x05 :: 0x20 :: List.replicate 32 0⟩

/-- C6, witness at a concrete container with wrong framing bytes. -/
theorem fromPkcs8_rejects_bad_framing_witness :
    (2 ≤ pkiBadFraming.private_key.length ∧
      pkiBadFraming.private_key.take 2 ≠ [0x04, 0x20]) ∧
    SigningKey.fromPkcs8PrivateKeyInfo pkiBadFraming = some (.error .Decode) :=
  ⟨⟨by decide, by decide⟩,
   fromPkcs8_rejects_bad_framing pkiBadFraming (by decide) (by decide)⟩

/-- C7, failing input: on a container with the correct algorithm
identifier but an empty private-key payload, the decoder aborts the
process, because `split_at` panics when the payload is shorter than two
bytes; the abort is modelled by `none`.  The claim, and the
specification, require an `Ok` or `Err` value instead. -/
theorem fromPkcs8_panics_on_short_payload :
    SigningKey.fromPkcs8PrivateKeyInfo ⟨ALGORITHM_ID, []⟩ = none := rfl

set_option maxRecDepth 100000 in
/-- C8, counterexample: after `zeroize` on the key derived from the
all-zero seed, the nonce-material field still holds the high half of the
seed digest rather than zero bytes. -/
theorem zeroize_leaves_prefix_at_zero_seed :
    ((SigningKey.fromSeed (List.replicate 32 0)).zeroize).pfx ≠
      List.replicate 32 0 := by decide

/-- C8, amended: `zeroize` overwrites the 32 seed bytes and the 32
scalar bytes with zeros, and leaves the nonce-material field unchanged
rather than overwriting it. -/
theorem zeroize_overwrites_seed_and_scalar (seed : List Nat)
    (h : seed.length = 32) :
    ((SigningKey.fromSeed seed).zeroize).seed = List.replicate 32 0 ∧
    ((SigningKey.fromSeed seed).zeroize).s = List.replicate 32 0 ∧
    ((SigningKey.fromSeed seed).zeroize).pfx = (SigningKey.fromSeed seed).pfx := by
  have hl : (SigningKey.fromSeed seed).seed.length = 32 := by
    rw [fromSeed_seed]; exact h
  have hs : (SigningKey.fromSeed seed).s.length = 32 := by
    rw [fromSeed_s, length_scalarFromBits, length_clampBytes,
      length_take32_sha512]
  exact ⟨by rw [SigningKey.zeroize, hl], by rw [SigningKey.zeroize, hs], rfl⟩

/-- C8, witness for the amended claim at the all-zero seed. -/
theorem zeroize_overwrites_seed_and_scalar_witness :
    (List.replicate 32 (0 : Nat)).length = 32 ∧
    ((SigningKey.fromSeed (List.replicate 32 0)).zeroize).seed =
      List.replicate 32 0 :=
  ⟨by decide, (zeroize_overwrites_seed_and_scalar (List.replicate 32 0) (by decide)).1⟩

/-- C9: constructing a signing key from a byte slice succeeds exactly
when the slice has length 32; the successful key is the one derived from
the 32 bytes, and every other length gives the invalid-length error. -/
theorem tryFromSlice_length_check (slice : List Nat) :
    ((∃ k, SigningKey.tryFromSlice slice = .ok k) ↔ slice.length = 32) ∧
    (slice.length = 32 →
      SigningKey.tryFromSlice slice = .ok (SigningKey.fromSeed slice)) ∧
    (slice.length ≠ 32 →
      SigningKey.tryFromSlice slice = .error .InvalidSliceLength) := by
  unfold SigningKey.tryFromSlice
  by_cases h : slice.length = 32
  · rw [if_pos h]
    exact ⟨⟨fun _ => h, fun _ => ⟨_, rfl⟩⟩, fun _ => rfl, fun hne => absurd h hne⟩
  · rw [if_neg h]
    refine ⟨⟨fun hex => ?_, fun hl => absurd hl h⟩,
      fun hl => absurd hl h, fun _ => rfl⟩
    obtain ⟨k, hk⟩ := hex
    exact nomatch hk

/-- C9, witness at lengths 0, 31, 33 and 32. -/
theorem tryFromSlice_length_check_witness :
    SigningKey.tryFromSlice (List.replicate 0 0) = .error .InvalidSliceLength ∧
    SigningKey.tryFromSlice (List.replicate 31 0) = .error .InvalidSliceLength ∧
    SigningKey.tryFromSlice (List.replicate 33 0) = .error .InvalidSliceLength ∧
    SigningKey.tryFromSlice (List.replicate 32 0) =
      .ok (SigningKey.fromSeed (List.replicate 32 0)) :=
  ⟨(tryFromSlice_length_check (List.replicate 0 0)).2.2 (by decide),
   (tryFromSlice_length_check (List.replicate 31 0)).2.2 (by decide),
   (tryFromSlice_length_check (List.replicate 33 0)).2.2 (by decide),
   (tryFromSlice_length_check (List.replicate 32 0)).2.1 (by decide)⟩

/-- C10: signing is deterministic, two runs of `sign` on the same key
and message are the same pure computation and yield byte-identical
output, and the serialized signature is 64 bytes. -/
theorem sign_deterministic_64_bytes (seed msg : List Nat) :
    (SigningKey.fromSeed seed).sign msg = (SigningKey.fromSeed seed).sign msg ∧
    ((SigningKey.fromSeed seed).sign msg).toBytes.length = 64 := by
  refine ⟨rfl, ?_⟩
  simp [SigningKey.sign, Signature.toBytes, length_compress, scalarAddMod,
    length_bytesFromNatLE]

end Ed25519
